import Mathlib

/-
Verification of the history-log store of `django-mem0-client`
(`src/mem0client/memory_manager.py` and `src/mem0client/models.py`).

The embedding models the Django-backed table `memory_history` as a list of
rows together with a fresh-id counter (standing for `uuid4` generation of
primary keys).  `DjangoMemoryManager.add_history` appends one row,
`get_history` filters by `memory_id` and sorts by
`order_by('created_at', 'updated_at')` (modelled as a stable insertion sort
on the lexicographic key, with NULL timestamps ordered first, matching the
SQLite backend's ascending NULLS FIRST), and `reset` deletes every row.
Python `datetime` values are modelled abstractly as natural numbers;
dictionaries returned by `get_history` are association lists preserving the
literal key order of the source.
-/

namespace Mem0

/-- Embeds the Django model `MemoryHistory` from `src/mem0client/models.py`:
`id` is the generated primary key (a `uuid4` in the source, modelled as a
natural number drawn from a fresh counter), `created_at`/`updated_at` are
nullable `DateTimeField`s (datetimes modelled as `Nat`), and the remaining
fields mirror the model's columns. -/
structure MemoryHistory where
  id : Nat
  memory_id : String
  old_memory : Option String
  new_memory : Option String
  event : String
  created_at : Option Nat
  updated_at : Option Nat
  is_deleted : Bool
  actor_id : Option String
  role : Option String
deriving DecidableEq

/-- The state of the backing store: the rows of the `memory_history` table in
insertion order, plus the source of fresh primary keys (modelling `uuid4`
uniqueness). -/
structure DB where
  rows : List MemoryHistory
  nextId : Nat
deriving DecidableEq

/-- Python truthiness of an `int` under `bool(...)`: `bool(i)` is true exactly
when `i` is nonzero.  `add_history` applies this to its `is_deleted`
parameter before storing. -/
def pyBool (i : Int) : Bool := i != 0

/-- The row built by `MemoryHistory.objects.create(...)` inside
`add_history`, given the fresh primary key `nid`. -/
def newRow (nid : Nat) (memory_id : String) (old_memory new_memory : Option String)
    (event : String) (created_at updated_at : Option Nat) (is_deleted : Int)
    (actor_id role : Option String) : MemoryHistory :=
  { id := nid
    memory_id := memory_id
    old_memory := old_memory
    new_memory := new_memory
    event := event
    created_at := created_at
    updated_at := updated_at
    is_deleted := pyBool is_deleted
    actor_id := actor_id
    role := role }

/-- Embeds `DjangoMemoryManager.add_history`: inserts exactly one new row
with a freshly generated id; no validation is performed on any field.  The
keyword-only parameters default to `None` (resp. `0` for `is_deleted`) in the
source; callers of this embedding pass them explicitly. -/
def add_history (db : DB) (memory_id : String) (old_memory new_memory : Option String)
    (event : String) (created_at updated_at : Option Nat) (is_deleted : Int)
    (actor_id role : Option String) : DB :=
  { rows := db.rows ++ [newRow db.nextId memory_id old_memory new_memory event
      created_at updated_at is_deleted actor_id role]
    nextId := db.nextId + 1 }

/-- Strict ascending order on nullable timestamps as the SQLite backend sorts
them: NULL precedes every value, values compare numerically. -/
def optLT : Option Nat → Option Nat → Bool
  | none, none => false
  | none, some _ => true
  | some _, none => false
  | some a, some b => decide (a < b)

/-- The sort key used by `order_by('created_at', 'updated_at')`. -/
def sortKey (e : MemoryHistory) : Option Nat × Option Nat :=
  (e.created_at, e.updated_at)

/-- Non-strict lexicographic comparison on `(created_at, updated_at)`,
deciding the ordering of `order_by('created_at', 'updated_at')`. -/
def keyLEb (a b : MemoryHistory) : Bool :=
  optLT a.created_at b.created_at ||
    (a.created_at == b.created_at &&
      (optLT a.updated_at b.updated_at || a.updated_at == b.updated_at))

/-- Propositional form of `keyLEb`, the relation handed to the sort. -/
def keyLE (a b : MemoryHistory) : Prop := keyLEb a b = true

instance : DecidableRel keyLE :=
  fun a b => inferInstanceAs (Decidable (keyLEb a b = true))

/-- A field value as it appears in the dictionaries built by `get_history`:
Python `None`, a string, a `datetime` (modelled by its `Nat` code), or a
boolean. -/
inductive Value where
  | vnull : Value
  | vstr : String → Value
  | vtime : Nat → Value
  | vbool : Bool → Value
deriving DecidableEq

/-- An optional string field as a dictionary value (`None` or the string). -/
def ostr : Option String → Value
  | none => Value.vnull
  | some s => Value.vstr s

/-- An optional datetime field as a dictionary value (`None` or the
datetime). -/
def otime : Option Nat → Value
  | none => Value.vnull
  | some n => Value.vtime n

/-- The dictionary literal built for one row inside `get_history`, with keys
in the source's order; `id` goes through `str(...)`. -/
def toDict (e : MemoryHistory) : List (String × Value) :=
  [("id", Value.vstr (toString e.id)),
   ("memory_id", Value.vstr e.memory_id),
   ("old_memory", ostr e.old_memory),
   ("new_memory", ostr e.new_memory),
   ("event", Value.vstr e.event),
   ("created_at", otime e.created_at),
   ("updated_at", otime e.updated_at),
   ("is_deleted", Value.vbool e.is_deleted),
   ("actor_id", ostr e.actor_id),
   ("role", ostr e.role)]

/-- Embeds `DjangoMemoryManager.get_history`: filter the table by
`memory_id`, order by `(created_at, updated_at)` ascending, and materialize
each row as a dictionary.  The stable insertion sort is one concrete
refinement of the backing engine's ordering; the relative order of rows with
equal sort keys is engine-incidental and not guaranteed by the source, and
`sortedOutcome` below states only what `order_by` does guarantee. -/
def get_history (db : DB) (memory_id : String) : List (List (String × Value)) :=
  (List.insertionSort keyLE
      (db.rows.filter (fun r => r.memory_id == memory_id))).map toDict

/-- What the source's `filter(memory_id=...).order_by('created_at',
'updated_at')` guarantees about a query result: it lists the dictionaries of
exactly the matching rows, arranged in some non-decreasing
`(created_at, updated_at)` order.  The relative order of rows with equal
sort keys is left to the backing engine, so every such arrangement is a
possible outcome. -/
def sortedOutcome (db : DB) (memory_id : String)
    (result : List (List (String × Value))) : Prop :=
  ∃ perm_rows : List MemoryHistory,
    perm_rows.Perm (db.rows.filter (fun r => r.memory_id == memory_id)) ∧
    perm_rows.Pairwise keyLE ∧ result = perm_rows.map toDict

/-- Embeds `DjangoMemoryManager.reset`:
`MemoryHistory.objects.all().delete()` removes every row. -/
def reset (db : DB) : DB :=
  { rows := [], nextId := db.nextId }

/-- The row count of the `memory_history` table. -/
def rowCount (db : DB) : Nat := db.rows.length

/-- A JSON value, as produced by the downstream encoder for one field of a
serialized history entry. -/
inductive Json where
  | jnull : Json
  | jstr : String → Json
  | jbool : Bool → Json
deriving DecidableEq

/-- Two-digit zero padding for timestamp components. -/
def pad2 (n : Nat) : String :=
  if n < 10 then "0" ++ toString n else toString n

/-- Modelled from the spec: the ISO-8601 rendering the downstream JSON
encoder applies to a `DateTimeField` value (the repository itself contains
no serializer; `get_history` returns datetime objects and §6 of the spec
says timestamps serialize to ISO-8601 strings).  Datetimes are modelled as
seconds, and the calendar arithmetic is simplified (365-day years, 30-day
months) since the claims depend only on the string-or-null shape of the
output. -/
def isoString (n : Nat) : String :=
  toString (1970 + n / 31536000) ++ "-" ++ pad2 (n / 2592000 % 12 + 1) ++ "-" ++
    pad2 (n / 86400 % 30 + 1) ++ "T" ++ pad2 (n / 3600 % 24) ++ ":" ++
    pad2 (n / 60 % 60) ++ ":" ++ pad2 (n % 60)

/-- Modelled from the spec: how the downstream JSON encoder serializes one
field value of a history entry — `None` to null, strings unchanged,
datetimes to ISO-8601 strings, booleans to JSON booleans. -/
def serializeValue : Value → Json
  | Value.vnull => Json.jnull
  | Value.vstr s => Json.jstr s
  | Value.vtime n => Json.jstr (isoString n)
  | Value.vbool b => Json.jbool b

/-- The timestamp (if any) held by a dictionary value. -/
def timeOf : Option Value → Option Nat
  | some (Value.vtime n) => some n
  | _ => none

/-- Strict ascending order on returned dictionaries by their
`(created_at, updated_at)` entries — the order `get_history` promises when
timestamps are distinct. -/
def dictTimeLT (d1 d2 : List (String × Value)) : Prop :=
  optLT (timeOf (List.lookup "created_at" d1)) (timeOf (List.lookup "created_at" d2)) = true ∨
    (timeOf (List.lookup "created_at" d1) = timeOf (List.lookup "created_at" d2) ∧
      optLT (timeOf (List.lookup "updated_at" d1))
        (timeOf (List.lookup "updated_at" d2)) = true)

/-! Basic facts about the ordering used by `order_by`. -/

theorem optLT_trichotomy (x y : Option Nat) :
    optLT x y = true ∨ x = y ∨ optLT y x = true := by
  cases x <;> cases y <;> simp [optLT] <;> omega

theorem optLT_trans {x y z : Option Nat} (hxy : optLT x y = true)
    (hyz : optLT y z = true) : optLT x z = true := by
  cases x <;> cases y <;> cases z <;> simp_all [optLT] <;> omega

theorem optLT_irrefl (x : Option Nat) : optLT x x = false := by
  cases x <;> simp [optLT]

theorem keyLEb_iff {a b : MemoryHistory} :
    keyLEb a b = true ↔
      (optLT a.created_at b.created_at = true ∨
        (a.created_at = b.created_at ∧
          (optLT a.updated_at b.updated_at = true ∨ a.updated_at = b.updated_at))) := by
  simp [keyLEb, Bool.or_eq_true, Bool.and_eq_true, beq_iff_eq]

instance : IsTotal MemoryHistory keyLE := by
  constructor
  intro a b
  unfold keyLE
  rcases optLT_trichotomy a.created_at b.created_at with h | h | h
  · exact Or.inl (keyLEb_iff.mpr (Or.inl h))
  · rcases optLT_trichotomy a.updated_at b.updated_at with h2 | h2 | h2
    · exact Or.inl (keyLEb_iff.mpr (Or.inr ⟨h, Or.inl h2⟩))
    · exact Or.inl (keyLEb_iff.mpr (Or.inr ⟨h, Or.inr h2⟩))
    · exact Or.inr (keyLEb_iff.mpr (Or.inr ⟨h.symm, Or.inl h2⟩))
  · exact Or.inr (keyLEb_iff.mpr (Or.inl h))

instance : IsTrans MemoryHistory keyLE := by
  constructor
  intro a b c hab hbc
  unfold keyLE at *
  rcases keyLEb_iff.mp hab with h1 | ⟨e1, h1⟩ <;>
    rcases keyLEb_iff.mp hbc with h2 | ⟨e2, h2⟩
  · exact keyLEb_iff.mpr (Or.inl (optLT_trans h1 h2))
  · exact keyLEb_iff.mpr (Or.inl (e2 ▸ h1))
  · exact keyLEb_iff.mpr (Or.inl (e1 ▸ h2))
  · refine keyLEb_iff.mpr (Or.inr ⟨e1.trans e2, ?_⟩)
    rcases h1 with h1 | h1 <;> rcases h2 with h2 | h2
    · exact Or.inl (optLT_trans h1 h2)
    · exact Or.inl (h2 ▸ h1)
    · exact Or.inl (h1 ▸ h2)
    · exact Or.inr (h1.trans h2)

/-! Basic facts about `get_history`. -/

/-- `get_history` returns the matching rows (as dictionaries) up to order. -/
theorem get_history_perm (db : DB) (mid : String) :
    (get_history db mid).Perm
      ((db.rows.filter (fun r => r.memory_id == mid)).map toDict) :=
  (List.perm_insertionSort keyLE _).map toDict

/-- Filtering the rows after an append: the appended row survives the filter
exactly when its `memory_id` matches. -/
theorem filter_rows_add (db : DB) (mid : String) (oldV newV : Option String)
    (ev : String) (ca ua : Option Nat) (isd : Int) (aid rl : Option String)
    (qid : String) :
    ((add_history db mid oldV newV ev ca ua isd aid rl).rows.filter
        (fun r => r.memory_id == qid)) =
      db.rows.filter (fun r => r.memory_id == qid) ++
        (if mid == qid
          then [newRow db.nextId mid oldV newV ev ca ua isd aid rl]
          else []) := by
  simp only [add_history, List.filter_append]
  by_cases h : mid == qid <;> simp [newRow, List.filter, h]

/-- Appending an event and querying the same `memoryID` yields, up to order,
exactly the old entries plus the one new dictionary. -/
theorem perm_add (db : DB) (mid : String) (oldV newV : Option String)
    (ev : String) (ca ua : Option Nat) (isd : Int) (aid rl : Option String) :
    (get_history (add_history db mid oldV newV ev ca ua isd aid rl) mid).Perm
      (toDict (newRow db.nextId mid oldV newV ev ca ua isd aid rl) ::
        get_history db mid) := by
  refine (get_history_perm _ _).trans ?_
  rw [filter_rows_add]
  simp only [beq_self_eq_true, if_pos]
  refine (List.Perm.map toDict (List.perm_append_singleton _ _)).trans ?_
  exact List.Perm.cons _ (get_history_perm db mid).symm

/-- The dictionary of the appended row is among the results of a subsequent
`get_history` for the same `memoryID`. -/
theorem mem_get_history_add (db : DB) (mid : String) (oldV newV : Option String)
    (ev : String) (ca ua : Option Nat) (isd : Int) (aid rl : Option String) :
    toDict (newRow db.nextId mid oldV newV ev ca ua isd aid rl) ∈
      get_history (add_history db mid oldV newV ev ca ua isd aid rl) mid :=
  (perm_add db mid oldV newV ev ca ua isd aid rl).mem_iff.mpr (List.mem_cons_self _ _)

/-- Every dictionary produced by `get_history` is `toDict` of a stored row
whose `memory_id` matches the query. -/
theorem mem_get_history_elim {db : DB} {mid : String} {d : List (String × Value)}
    (hd : d ∈ get_history db mid) :
    ∃ e, e ∈ db.rows ∧ e.memory_id = mid ∧ toDict e = d := by
  have hd2 : d ∈ (db.rows.filter (fun r => r.memory_id == mid)).map toDict :=
    (get_history_perm db mid).mem_iff.mp hd
  rcases List.mem_map.mp hd2 with ⟨e, he, rfl⟩
  rcases List.mem_filter.mp he with ⟨he1, he2⟩
  exact ⟨e, he1, by simpa [beq_iff_eq] using he2, rfl⟩

/-- A concrete sample row (primary key 0) used by the witnesses. -/
def rowA : MemoryHistory :=
  newRow 0 "m1" none (some "fact A") "ADD" (some 5) (some 6) 0 none none

/-- A concrete sample store holding just `rowA`, used by the witnesses. -/
def dbA : DB := { rows := [rowA], nextId := 1 }

/-- C1: appending an event with all optional parameters omitted and then
querying the same `memoryID` returns, up to order, the previous entries plus
exactly one new entry whose `memory_id`, `old_memory`, `new_memory` and
`event` equal the supplied values, whose `is_deleted` is false, and whose
`created_at`, `updated_at`, `actor_id` and `role` are null. -/
theorem C1_append_then_get (db : DB) (mid : String) (oldV newV : Option String)
    (ev : String) :
    ∃ d,
      (get_history (add_history db mid oldV newV ev none none 0 none none) mid).Perm
        (d :: get_history db mid) ∧
      List.lookup "memory_id" d = some (Value.vstr mid) ∧
      List.lookup "old_memory" d = some (ostr oldV) ∧
      List.lookup "new_memory" d = some (ostr newV) ∧
      List.lookup "event" d = some (Value.vstr ev) ∧
      List.lookup "is_deleted" d = some (Value.vbool false) ∧
      List.lookup "created_at" d = some Value.vnull ∧
      List.lookup "updated_at" d = some Value.vnull ∧
      List.lookup "actor_id" d = some Value.vnull ∧
      List.lookup "role" d = some Value.vnull :=
  ⟨toDict (newRow db.nextId mid oldV newV ev none none 0 none none),
    perm_add db mid oldV newV ev none none 0 none none,
    rfl, rfl, rfl, rfl, rfl, rfl, rfl, rfl, rfl⟩

/-- C3: after `reset`, `get_history` returns the empty list for every
`memoryID` and the row count of the table is zero. -/
theorem C3_reset_clears (db : DB) :
    (∀ mid, get_history (reset db) mid = []) ∧ rowCount (reset db) = 0 := by
  constructor
  · intro mid
    simp [get_history, reset]
  · simp [rowCount, reset]

/-- C4: `add_history` only appends — the new row list is the old one with
exactly one row added at the end — and every dictionary previously returned
by `get_history` (for any queried `memoryID`) is still returned afterwards,
unchanged. -/
theorem C4_append_only_frame (db : DB) (mid : String) (oldV newV : Option String)
    (ev : String) (ca ua : Option Nat) (isd : Int) (aid rl : Option String)
    (qid : String) (d : List (String × Value)) (hd : d ∈ get_history db qid) :
    (add_history db mid oldV newV ev ca ua isd aid rl).rows =
      db.rows ++ [newRow db.nextId mid oldV newV ev ca ua isd aid rl] ∧
    d ∈ get_history (add_history db mid oldV newV ev ca ua isd aid rl) qid := by
  refine ⟨rfl, ?_⟩
  have hd2 : d ∈ (db.rows.filter (fun r => r.memory_id == qid)).map toDict :=
    (get_history_perm db qid).mem_iff.mp hd
  refine (get_history_perm _ qid).mem_iff.mpr ?_
  rw [filter_rows_add]
  rw [List.map_append]
  exact List.mem_append_left _ hd2

/-- Witness for C4 at a concrete store and query. -/
theorem C4_append_only_frame_witness :
    (add_history dbA "m2" none (some "x") "ADD" none none 0 none none).rows =
      dbA.rows ++ [newRow 1 "m2" none (some "x") "ADD" none none 0 none none] ∧
    toDict rowA ∈
      get_history (add_history dbA "m2" none (some "x") "ADD" none none 0 none none) "m1" :=
  C4_append_only_frame dbA "m2" none (some "x") "ADD" none none 0 none none
    "m1" (toDict rowA) (by decide)

/-- C5: querying a `memoryID` with no stored events returns the empty list
(and in the embedding the call is total, so no error can be raised). -/
theorem C5_no_rows_empty (db : DB) (mid : String)
    (h : ∀ r ∈ db.rows, r.memory_id ≠ mid) :
    get_history db mid = [] := by
  have hf : db.rows.filter (fun r => r.memory_id == mid) = [] := by
    rw [List.filter_eq_nil_iff]
    intro a ha
    simpa [beq_iff_eq] using h a ha
  simp [get_history, hf]

/-- Witness for C5: a `memoryID` absent from a populated store. -/
theorem C5_no_rows_empty_witness :
    (∀ r ∈ dbA.rows, r.memory_id ≠ "m9") ∧ get_history dbA "m9" = [] :=
  ⟨by decide, C5_no_rows_empty dbA "m9" (by decide)⟩

/-- C6: every dictionary returned by `get_history` carries exactly the ten
keys of the source's dict literal, in order — absent values appear as null
under their key rather than the key being omitted. -/
theorem C6_all_keys_present (db : DB) (mid : String) (d : List (String × Value))
    (hd : d ∈ get_history db mid) :
    d.map Prod.fst =
      ["id", "memory_id", "old_memory", "new_memory", "event",
       "created_at", "updated_at", "is_deleted", "actor_id", "role"] := by
  rcases mem_get_history_elim hd with ⟨e, -, -, rfl⟩
  rfl

/-- Witness for C6 at a concrete store. -/
theorem C6_all_keys_present_witness :
    toDict rowA ∈ get_history dbA "m1" ∧
    (toDict rowA).map Prod.fst =
      ["id", "memory_id", "old_memory", "new_memory", "event",
       "created_at", "updated_at", "is_deleted", "actor_id", "role"] :=
  ⟨by decide, C6_all_keys_present dbA "m1" (toDict rowA) (by decide)⟩

/-- C7: `add_history` validates nothing about `eventKind` beyond the
10-character column width — any such string, enumeration member or not, is
stored unchanged and returned unchanged by `get_history`. -/
theorem C7_event_not_validated (db : DB) (mid : String) (oldV newV : Option String)
    (ev : String) (ca ua : Option Nat) (isd : Int) (aid rl : Option String)
    (hlen : ev.length ≤ 10) :
    (add_history db mid oldV newV ev ca ua isd aid rl).rows =
      db.rows ++ [newRow db.nextId mid oldV newV ev ca ua isd aid rl] ∧
    (newRow db.nextId mid oldV newV ev ca ua isd aid rl).event = ev ∧
    toDict (newRow db.nextId mid oldV newV ev ca ua isd aid rl) ∈
      get_history (add_history db mid oldV newV ev ca ua isd aid rl) mid ∧
    List.lookup "event" (toDict (newRow db.nextId mid oldV newV ev ca ua isd aid rl)) =
      some (Value.vstr ev) :=
  ⟨rfl, rfl, mem_get_history_add db mid oldV newV ev ca ua isd aid rl, rfl⟩

/-- Witness for C7 at the non-enumeration event string `"NONSENSE"`. -/
theorem C7_event_not_validated_witness :
    "NONSENSE".length ≤ 10 ∧
    ((add_history dbA "m1" none none "NONSENSE" none none 0 none none).rows =
        dbA.rows ++ [newRow 1 "m1" none none "NONSENSE" none none 0 none none] ∧
      (newRow 1 "m1" none none "NONSENSE" none none 0 none none).event = "NONSENSE" ∧
      toDict (newRow 1 "m1" none none "NONSENSE" none none 0 none none) ∈
        get_history (add_history dbA "m1" none none "NONSENSE" none none 0 none none) "m1" ∧
      List.lookup "event" (toDict (newRow 1 "m1" none none "NONSENSE" none none 0 none none)) =
        some (Value.vstr "NONSENSE")) :=
  ⟨by decide,
    C7_event_not_validated dbA "m1" none none "NONSENSE" none none 0 none none (by decide)⟩

/-- C9: in every history entry returned by `get_history`, the values stored
under `created_at` and `updated_at` serialize to an ISO-8601 string or to
null, and the value under `is_deleted` serializes to a JSON boolean. -/
theorem C9_serialization_shape (db : DB) (mid : String) (d : List (String × Value))
    (hd : d ∈ get_history db mid) :
    (∀ v, List.lookup "created_at" d = some v →
      serializeValue v = Json.jnull ∨ ∃ n, serializeValue v = Json.jstr (isoString n)) ∧
    (∀ v, List.lookup "updated_at" d = some v →
      serializeValue v = Json.jnull ∨ ∃ n, serializeValue v = Json.jstr (isoString n)) ∧
    (∀ v, List.lookup "is_deleted" d = some v →
      ∃ b, serializeValue v = Json.jbool b) := by
  rcases mem_get_history_elim hd with ⟨e, -, -, rfl⟩
  refine ⟨?_, ?_, ?_⟩
  · intro v hv
    cases hc : e.created_at <;>
      · rw [show List.lookup "created_at" (toDict e) = some (otime e.created_at) from rfl,
          hc] at hv
        cases hv
        first
          | exact Or.inl rfl
          | exact Or.inr ⟨_, rfl⟩
  · intro v hv
    cases hc : e.updated_at <;>
      · rw [show List.lookup "updated_at" (toDict e) = some (otime e.updated_at) from rfl,
          hc] at hv
        cases hv
        first
          | exact Or.inl rfl
          | exact Or.inr ⟨_, rfl⟩
  · intro v hv
    rw [show List.lookup "is_deleted" (toDict e) = some (Value.vbool e.is_deleted) from rfl]
      at hv
    cases hv
    exact ⟨e.is_deleted, rfl⟩

/-- Witness for C9 at a concrete entry. -/
theorem C9_serialization_shape_witness :
    toDict rowA ∈ get_history dbA "m1" ∧
    ((∀ v, List.lookup "created_at" (toDict rowA) = some v →
      serializeValue v = Json.jnull ∨ ∃ n, serializeValue v = Json.jstr (isoString n)) ∧
    (∀ v, List.lookup "updated_at" (toDict rowA) = some v →
      serializeValue v = Json.jnull ∨ ∃ n, serializeValue v = Json.jstr (isoString n)) ∧
    (∀ v, List.lookup "is_deleted" (toDict rowA) = some v →
      ∃ b, serializeValue v = Json.jbool b)) :=
  ⟨by decide, C9_serialization_shape dbA "m1" (toDict rowA) (by decide)⟩

/-- C10: `add_history` coerces its integer `is_deleted` parameter with
`bool(...)` before storing, so the value later returned under `is_deleted`
is the boolean that is true exactly when the supplied integer was truthy
(nonzero), and false when the parameter is left at its default `0`. -/
theorem C10_is_deleted_coercion (db : DB) (mid : String) (oldV newV : Option String)
    (ev : String) (ca ua : Option Nat) (aid rl : Option String) (isd : Int) :
    (∃ d, d ∈ get_history (add_history db mid oldV newV ev ca ua isd aid rl) mid ∧
      List.lookup "is_deleted" d = some (Value.vbool (pyBool isd))) ∧
    (pyBool isd = true ↔ isd ≠ 0) ∧
    (∃ d, d ∈ get_history (add_history db mid oldV newV ev ca ua 0 aid rl) mid ∧
      List.lookup "is_deleted" d = some (Value.vbool false)) := by
  refine ⟨⟨toDict (newRow db.nextId mid oldV newV ev ca ua isd aid rl),
      mem_get_history_add db mid oldV newV ev ca ua isd aid rl, rfl⟩,
    ?_,
    ⟨toDict (newRow db.nextId mid oldV newV ev ca ua 0 aid rl),
      mem_get_history_add db mid oldV newV ev ca ua 0 aid rl, rfl⟩⟩
  simp [pyBool]

/-- The `created_at` entry of a row's dictionary holds exactly the row's
`created_at` timestamp. -/
theorem timeOf_created (e : MemoryHistory) :
    timeOf (List.lookup "created_at" (toDict e)) = e.created_at := by
  rw [show List.lookup "created_at" (toDict e) = some (otime e.created_at) from rfl]
  rcases hc : e.created_at with _ | n <;> rfl

/-- The `updated_at` entry of a row's dictionary holds exactly the row's
`updated_at` timestamp. -/
theorem timeOf_updated (e : MemoryHistory) :
    timeOf (List.lookup "updated_at" (toDict e)) = e.updated_at := by
  rw [show List.lookup "updated_at" (toDict e) = some (otime e.updated_at) from rfl]
  rcases hc : e.updated_at with _ | n <;> rfl

/-- A second sample row for `"m1"`, with a later `created_at` than `rowA`
but stored before it, so that sorting is observable. -/
def rowB : MemoryHistory :=
  newRow 1 "m1" (some "fact A") (some "fact B") "UPDATE" (some 9) none 0 none none

/-- A sample store holding `rowB` before `rowA` (out of timestamp order). -/
def dbB : DB := { rows := [rowB, rowA], nextId := 2 }

/-- C2: when the matching rows carry pairwise-distinct
`(created_at, updated_at)` keys, `get_history` returns exactly the matching
rows — all of them and no others, up to order — and the returned sequence is
strictly ascending in `(created_at, updated_at)`. -/
theorem C2_sorted_and_complete (db : DB) (mid : String)
    (hdist : (db.rows.filter (fun r => r.memory_id == mid)).Pairwise
      (fun a b => sortKey a ≠ sortKey b)) :
    (get_history db mid).Perm
      ((db.rows.filter (fun r => r.memory_id == mid)).map toDict) ∧
    (get_history db mid).Pairwise dictTimeLT := by
  refine ⟨get_history_perm db mid, ?_⟩
  have hsorted : (List.insertionSort keyLE
      (db.rows.filter (fun r => r.memory_id == mid))).Pairwise keyLE :=
    List.sorted_insertionSort keyLE _
  have hne : (List.insertionSort keyLE
      (db.rows.filter (fun r => r.memory_id == mid))).Pairwise
        (fun a b => sortKey a ≠ sortKey b) :=
    ((List.perm_insertionSort keyLE _).pairwise_iff (fun h => Ne.symm h)).mpr hdist
  show ((List.insertionSort keyLE
      (db.rows.filter (fun r => r.memory_id == mid))).map toDict).Pairwise dictTimeLT
  refine List.Pairwise.map toDict ?_ (hsorted.and hne)
  intro a b hab
  rcases hab with ⟨hle, hkey⟩
  rcases keyLEb_iff.mp hle with h | ⟨hc, h⟩
  · exact Or.inl (by rw [timeOf_created, timeOf_created]; exact h)
  · rcases h with h | h
    · exact Or.inr ⟨by rw [timeOf_created, timeOf_created]; exact hc,
        by rw [timeOf_updated, timeOf_updated]; exact h⟩
    · exact absurd (by simp [sortKey, hc, h]) hkey

/-- Witness for C2: two rows inserted out of timestamp order. -/
theorem C2_sorted_and_complete_witness :
    (dbB.rows.filter (fun r => r.memory_id == "m1")).Pairwise
      (fun a b => sortKey a ≠ sortKey b) ∧
    ((get_history dbB "m1").Perm
        ((dbB.rows.filter (fun r => r.memory_id == "m1")).map toDict) ∧
      (get_history dbB "m1").Pairwise dictTimeLT) :=
  ⟨by decide, C2_sorted_and_complete dbB "m1" (by decide)⟩

/-- The store produced by the two appends of the concrete scenario: an ADD
for `"m1"` with no optional parameters, then an UPDATE for `"m1"` with
`actor_id="u1"` and `role="admin"`, neither supplying timestamps. -/
def dbScenario : DB :=
  add_history
    (add_history { rows := [], nextId := 0 } "m1" none (some "fact A") "ADD"
      none none 0 none none)
    "m1" (some "fact A") (some "fact A revised") "UPDATE" none none 0
    (some "u1") (some "admin")

/-- The ADD row stored by the first append of the concrete scenario. -/
def rowAdd : MemoryHistory :=
  newRow 0 "m1" none (some "fact A") "ADD" none none 0 none none

/-- The UPDATE row stored by the second append of the concrete scenario. -/
def rowUpd : MemoryHistory :=
  newRow 1 "m1" (some "fact A") (some "fact A revised") "UPDATE"
    none none 0 (some "u1") (some "admin")

/-- The executable `get_history` is one of the outcomes the source's query
contract allows. -/
theorem get_history_is_outcome (db : DB) (mid : String) :
    sortedOutcome db mid (get_history db mid) :=
  ⟨List.insertionSort keyLE (db.rows.filter (fun r => r.memory_id == mid)),
    List.perm_insertionSort keyLE _, List.sorted_insertionSort keyLE _, rfl⟩

/-- C8 as stated is false: in the concrete scenario both rows carry the
identical `(NULL, NULL)` sort key, so `order_by('created_at','updated_at')`
does not force the append order — the reversed list is also an allowed
outcome of the query, hence not every outcome equals the append-ordered
list. -/
theorem C8_tie_order_not_forced :
    sortedOutcome dbScenario "m1" [toDict rowUpd, toDict rowAdd] ∧
    ¬ (∀ result, sortedOutcome dbScenario "m1" result →
        result = [toDict rowAdd, toDict rowUpd]) := by
  constructor
  · exact ⟨[rowUpd, rowAdd], by decide, by decide, rfl⟩
  · intro hall
    have h2 := hall [toDict rowUpd, toDict rowAdd]
      ⟨[rowUpd, rowAdd], by decide, by decide, rfl⟩
    exact absurd h2 (by decide)

/-- C8 amended: in the concrete scenario, every outcome of
`GetHistory("m1")` consists of exactly the two appended entries — in some
order, since both share the null `(created_at, updated_at)` sort key and the
code fixes no tie order — with the UPDATE entry carrying `actor_id="u1"` and
`role="admin"`. -/
theorem C8_two_entries_up_to_order (result : List (List (String × Value)))
    (h : sortedOutcome dbScenario "m1" result) :
    result.Perm [toDict rowAdd, toDict rowUpd] ∧
    result.length = 2 ∧
    List.lookup "actor_id" (toDict rowUpd) = some (Value.vstr "u1") ∧
    List.lookup "role" (toDict rowUpd) = some (Value.vstr "admin") ∧
    toDict rowUpd ∈ result := by
  rcases h with ⟨perm_rows, hp, -, rfl⟩
  have hfe : dbScenario.rows.filter (fun r => r.memory_id == "m1") =
      [rowAdd, rowUpd] := by decide
  have hperm : (perm_rows.map toDict).Perm [toDict rowAdd, toDict rowUpd] := by
    have hm := hp.map toDict
    rw [hfe] at hm
    exact hm
  refine ⟨hperm, ?_, rfl, rfl, ?_⟩
  · have := hperm.length_eq
    simpa using this
  · exact hperm.mem_iff.mpr (by decide)

/-- Witness for the amended C8 at the append-ordered outcome. -/
theorem C8_two_entries_up_to_order_witness :
    ([toDict rowAdd, toDict rowUpd] : List (List (String × Value))).Perm
      [toDict rowAdd, toDict rowUpd] ∧
    ([toDict rowAdd, toDict rowUpd] : List (List (String × Value))).length = 2 ∧
    List.lookup "actor_id" (toDict rowUpd) = some (Value.vstr "u1") ∧
    List.lookup "role" (toDict rowUpd) = some (Value.vstr "admin") ∧
    toDict rowUpd ∈ [toDict rowAdd, toDict rowUpd] :=
  C8_two_entries_up_to_order [toDict rowAdd, toDict rowUpd]
    ⟨[rowAdd, rowUpd], by decide, by decide, rfl⟩

end Mem0
